import Mathlib

/-!
Verification development for the GrainHill repository.

Shallow embedding of the transition-rule builders
(`grain_facet_model.py`, `block_hill.py`), the cosmogenic tracer
accumulator (`cosmogenic_irradiator.py`), the surface extractor and
slope fitter (`slope_measurer.py`), and the simulation driver loop
(`GrainFacetSimulator.run`).  Python floats are modelled as rationals;
the transcendental collaborators (`np.exp`, `np.arctan`, `np.pi`) are
modelled as parameters or real-valued definitions.
-/

namespace GrainHill

/-- A CellLab-CTS transition rule: (from link state, to link state, rate,
label).  A link state is a triple (tail node state, head node state,
orientation).  Mirrors `landlab.ca.celllab_cts.Transition` as used in this
repository. -/
structure Transition where
  from_state : ℕ × ℕ × ℕ
  to_state : ℕ × ℕ × ℕ
  rate : ℚ
  name : String
deriving DecidableEq, Repr

/-- Block particle state code, `block_hill.py` line 17. -/
def BLOCK_ID : ℕ := 9

/-- The six disturbance rules of
`GrainFacetSimulator.add_weathering_and_disturbance_transitions`
(lines 130-136) and of
`BlockHill.add_weathering_and_disturbance_transitions` (lines 118-124). -/
def disturbanceRules (d : ℚ) : List Transition :=
  [⟨(7,0,0), (0,1,0), d, "disturbance"⟩,
   ⟨(7,0,1), (0,2,1), d, "disturbance"⟩,
   ⟨(7,0,2), (0,3,2), d, "disturbance"⟩,
   ⟨(0,7,0), (4,0,0), d, "disturbance"⟩,
   ⟨(0,7,1), (5,0,1), d, "disturbance"⟩,
   ⟨(0,7,2), (6,0,2), d, "disturbance"⟩]

/-- The six weathering rules of
`GrainFacetSimulator.add_weathering_and_disturbance_transitions`
(lines 140-145): rock (8) / air (0) pairs become resting-grain (7) / air
pairs. -/
def weatheringRules (w : ℚ) : List Transition :=
  [⟨(8,0,0), (7,0,0), w, "weathering"⟩,
   ⟨(8,0,1), (7,0,1), w, "weathering"⟩,
   ⟨(8,0,2), (7,0,2), w, "weathering"⟩,
   ⟨(0,8,0), (0,7,0), w, "weathering"⟩,
   ⟨(0,8,1), (0,7,1), w, "weathering"⟩,
   ⟨(0,8,2), (0,7,2), w, "weathering"⟩]

/-- The six dissolution rules of
`GrainFacetSimulator.add_weathering_and_disturbance_transitions`
(lines 149-154): rock (8) / air (0) pairs become air / air pairs. -/
def dissolutionRules (diss : ℚ) : List Transition :=
  [⟨(8,0,0), (0,0,0), diss, "dissolution"⟩,
   ⟨(8,0,1), (0,0,1), diss, "dissolution"⟩,
   ⟨(8,0,2), (0,0,2), diss, "dissolution"⟩,
   ⟨(0,8,0), (0,0,0), diss, "dissolution"⟩,
   ⟨(0,8,1), (0,0,1), diss, "dissolution"⟩,
   ⟨(0,8,2), (0,0,2), diss, "dissolution"⟩]

/-- `GrainFacetSimulator.add_weathering_and_disturbance_transitions`
(`grain_facet_model.py` lines 100-165): appends the disturbance group when
`d > 0`, the weathering group when `w > 0`, and the dissolution group when
`diss > 0`, in that order, to the given transition list. -/
def add_weathering_and_disturbance_transitions
    (xn_list : List Transition) (d w diss : ℚ) : List Transition :=
  let xn1 := if 0 < d then xn_list ++ disturbanceRules d else xn_list
  let xn2 := if 0 < w then xn1 ++ weatheringRules w else xn1
  if 0 < diss then xn2 ++ dissolutionRules diss else xn2

/-- The six weathering rules of
`BlockHill.add_weathering_and_disturbance_transitions`
(`block_hill.py` lines 128-133): rock (8) / air (0) pairs become
block (`BLOCK_ID` = 9) / air pairs. -/
def blockWeatheringRules (w : ℚ) : List Transition :=
  [⟨(8,0,0), (BLOCK_ID,0,0), w, "weathering"⟩,
   ⟨(8,0,1), (BLOCK_ID,0,1), w, "weathering"⟩,
   ⟨(8,0,2), (BLOCK_ID,0,2), w, "weathering"⟩,
   ⟨(0,8,0), (0,BLOCK_ID,0), w, "weathering"⟩,
   ⟨(0,8,1), (0,BLOCK_ID,1), w, "weathering"⟩,
   ⟨(0,8,2), (0,BLOCK_ID,2), w, "weathering"⟩]

/-- The single "vertical rock collapse" rule of
`BlockHill.add_weathering_and_disturbance_transitions`
(`block_hill.py` lines 137-139). -/
def rockCollapseRules (collapse_rate : ℚ) : List Transition :=
  [⟨(0,8,0), (0,BLOCK_ID,0), collapse_rate, "rock collapse"⟩]

/-- `BlockHill.add_weathering_and_disturbance_transitions`
(`block_hill.py` lines 90-147): appends the disturbance group when `d > 0`
and, when `w > 0`, the block-variant weathering group followed — only
inside the `w > 0` branch — by the rock-collapse rule when
`collapse_rate > 0`. -/
def blockhill_add_weathering_and_disturbance_transitions
    (xn_list : List Transition) (d w collapse_rate : ℚ) : List Transition :=
  let xn1 := if 0 < d then xn_list ++ disturbanceRules d else xn_list
  if 0 < w then
    xn1 ++ blockWeatheringRules w ++
      (if 0 < collapse_rate then rockCollapseRules collapse_rate else [])
  else xn1

/-- `BlockHill.add_block_transitions` (`block_hill.py` lines 149-188):
always appends 3 block-settling, 6 block-weathering, and 6 block-collision
rules, parameterized by the model's settling, disturbance, and weathering
rates. -/
def add_block_transitions (xn_list : List Transition)
    (settling_rate disturbance_rate weathering_rate : ℚ) : List Transition :=
  xn_list ++
  [⟨(0,BLOCK_ID,0), (BLOCK_ID,0,0), settling_rate, "block settling"⟩,
   ⟨(0,BLOCK_ID,1), (BLOCK_ID,0,1), disturbance_rate, "block settling"⟩,
   ⟨(BLOCK_ID,0,2), (0,BLOCK_ID,2), disturbance_rate, "block settling"⟩,
   ⟨(0,BLOCK_ID,0), (0,7,0), weathering_rate, "block weathering"⟩,
   ⟨(BLOCK_ID,0,0), (7,0,0), weathering_rate, "block weathering"⟩,
   ⟨(0,BLOCK_ID,1), (0,7,1), weathering_rate, "block weathering"⟩,
   ⟨(BLOCK_ID,0,1), (7,0,1), weathering_rate, "block weathering"⟩,
   ⟨(0,BLOCK_ID,2), (0,7,2), weathering_rate, "block weathering"⟩,
   ⟨(BLOCK_ID,0,2), (7,0,2), weathering_rate, "block weathering"⟩,
   ⟨(1,BLOCK_ID,0), (7,BLOCK_ID,0), settling_rate, "hit block"⟩,
   ⟨(2,BLOCK_ID,1), (7,BLOCK_ID,1), settling_rate, "hit block"⟩,
   ⟨(3,BLOCK_ID,2), (7,BLOCK_ID,2), settling_rate, "hit block"⟩,
   ⟨(BLOCK_ID,4,0), (BLOCK_ID,7,0), settling_rate, "hit block"⟩,
   ⟨(BLOCK_ID,5,1), (BLOCK_ID,7,1), settling_rate, "hit block"⟩,
   ⟨(BLOCK_ID,6,2), (BLOCK_ID,7,2), settling_rate, "hit block"⟩]

/-- A transition rule preserves the link orientation (third component of
its link-state triples). -/
def preservesOrientation (t : Transition) : Prop :=
  t.from_state.2.2 = t.to_state.2.2

instance (t : Transition) : Decidable (preservesOrientation t) := by
  unfold preservesOrientation; infer_instance

/-- The facet-model builder rewritten as a single append of the three
conditional rule groups. -/
lemma awdt_eq_append (xn_list : List Transition) (d w diss : ℚ) :
    add_weathering_and_disturbance_transitions xn_list d w diss =
      xn_list ++
        ((if 0 < d then disturbanceRules d else []) ++
         (if 0 < w then weatheringRules w else []) ++
         (if 0 < diss then dissolutionRules diss else [])) := by
  unfold add_weathering_and_disturbance_transitions
  by_cases hd : 0 < d <;> by_cases hw : 0 < w <;> by_cases hdiss : 0 < diss <;>
    simp [hd, hw, hdiss]

/-- The block-hill builder rewritten as a single append of its conditional
rule groups. -/
lemma blockhill_awdt_eq_append (xn_list : List Transition) (d w cr : ℚ) :
    blockhill_add_weathering_and_disturbance_transitions xn_list d w cr =
      xn_list ++
        ((if 0 < d then disturbanceRules d else []) ++
         (if 0 < w then
            blockWeatheringRules w ++
              (if 0 < cr then rockCollapseRules cr else [])
          else [])) := by
  unfold blockhill_add_weathering_and_disturbance_transitions
  by_cases hd : 0 < d <;> by_cases hw : 0 < w <;> by_cases hcr : 0 < cr <;>
    simp [hd, hw, hcr]

lemma rate_of_mem_disturbanceRules {d : ℚ} {t : Transition}
    (ht : t ∈ disturbanceRules d) : t.rate = d := by
  fin_cases ht <;> rfl

lemma rate_of_mem_weatheringRules {w : ℚ} {t : Transition}
    (ht : t ∈ weatheringRules w) : t.rate = w := by
  fin_cases ht <;> rfl

lemma rate_of_mem_dissolutionRules {diss : ℚ} {t : Transition}
    (ht : t ∈ dissolutionRules diss) : t.rate = diss := by
  fin_cases ht <;> rfl

/-- Membership in an `if c then l else []` list gives `c` and membership
in `l`. -/
lemma mem_ite_nil {c : Prop} [Decidable c] {l : List Transition}
    {t : Transition} (ht : t ∈ if c then l else []) : c ∧ t ∈ l := by
  by_cases h : c
  · simp [h] at ht; exact ⟨h, ht⟩
  · simp [h] at ht

/-- Claim C1: when the disturbance, weathering and dissolution rates are
all exactly 0, `GrainFacetSimulator.add_weathering_and_disturbance_transitions`
returns the base lattice-grain transition list unchanged, and moreover
every rule it ever appends (for any rates) carries a strictly positive
rate, so no zero-rate rule is ever emitted for those groups. -/
theorem c1_zero_rates_append_nothing :
    (∀ xn_list : List Transition,
      add_weathering_and_disturbance_transitions xn_list 0 0 0 = xn_list) ∧
    (∀ (xn_list : List Transition) (d w diss : ℚ),
      ∀ t ∈ (add_weathering_and_disturbance_transitions xn_list d w diss).drop
            xn_list.length, 0 < t.rate) := by
  constructor
  · intro xn_list
    simp [add_weathering_and_disturbance_transitions]
  · intro xn_list d w diss t ht
    rw [awdt_eq_append, List.drop_left] at ht
    rcases List.mem_append.mp ht with h | h
    · rcases List.mem_append.mp h with h1 | h1
      · obtain ⟨hc, hm⟩ := mem_ite_nil h1
        rw [rate_of_mem_disturbanceRules hm]; exact hc
      · obtain ⟨hc, hm⟩ := mem_ite_nil h1
        rw [rate_of_mem_weatheringRules hm]; exact hc
    · obtain ⟨hc, hm⟩ := mem_ite_nil h
      rw [rate_of_mem_dissolutionRules hm]; exact hc

/-- Witness for C1 at concrete inputs. -/
theorem c1_zero_rates_append_nothing_witness :
    add_weathering_and_disturbance_transitions [] 0 0 0 = [] ∧
    (0 : ℚ) < (⟨(7,0,0), (0,1,0), 1, "disturbance"⟩ : Transition).rate := by
  refine ⟨c1_zero_rates_append_nothing.1 [], ?_⟩
  exact c1_zero_rates_append_nothing.2 [] 1 0 0 _ (by decide)

lemma orient_of_mem_disturbanceRules {d : ℚ} {t : Transition}
    (ht : t ∈ disturbanceRules d) : preservesOrientation t := by
  fin_cases ht <;> rfl

lemma orient_of_mem_weatheringRules {w : ℚ} {t : Transition}
    (ht : t ∈ weatheringRules w) : preservesOrientation t := by
  fin_cases ht <;> rfl

lemma orient_of_mem_dissolutionRules {diss : ℚ} {t : Transition}
    (ht : t ∈ dissolutionRules diss) : preservesOrientation t := by
  fin_cases ht <;> rfl

lemma orient_of_mem_blockWeatheringRules {w : ℚ} {t : Transition}
    (ht : t ∈ blockWeatheringRules w) : preservesOrientation t := by
  fin_cases ht <;> rfl

lemma orient_of_mem_rockCollapseRules {cr : ℚ} {t : Transition}
    (ht : t ∈ rockCollapseRules cr) : preservesOrientation t := by
  fin_cases ht; rfl

/-- Claim C2: every rule appended by any of the rule builders — the facet
model's disturbance/weathering/dissolution groups, the block model's
disturbance/weathering/rock-collapse groups, and the block
settling/weathering/collision groups — preserves the orientation
component: the third element of the from-state triple equals the third
element of the to-state triple. -/
theorem c2_appended_rules_preserve_orientation :
    (∀ (xn_list : List Transition) (d w diss : ℚ),
      ∀ t ∈ (add_weathering_and_disturbance_transitions xn_list d w diss).drop
            xn_list.length, preservesOrientation t) ∧
    (∀ (xn_list : List Transition) (d w cr : ℚ),
      ∀ t ∈ (blockhill_add_weathering_and_disturbance_transitions
              xn_list d w cr).drop xn_list.length, preservesOrientation t) ∧
    (∀ (xn_list : List Transition) (sr dr wr : ℚ),
      ∀ t ∈ (add_block_transitions xn_list sr dr wr).drop xn_list.length,
        preservesOrientation t) := by
  refine ⟨?_, ?_, ?_⟩
  · intro xn_list d w diss t ht
    rw [awdt_eq_append, List.drop_left] at ht
    rcases List.mem_append.mp ht with h | h
    · rcases List.mem_append.mp h with h1 | h1
      · exact orient_of_mem_disturbanceRules (mem_ite_nil h1).2
      · exact orient_of_mem_weatheringRules (mem_ite_nil h1).2
    · exact orient_of_mem_dissolutionRules (mem_ite_nil h).2
  · intro xn_list d w cr t ht
    rw [blockhill_awdt_eq_append, List.drop_left] at ht
    rcases List.mem_append.mp ht with h | h
    · exact orient_of_mem_disturbanceRules (mem_ite_nil h).2
    · obtain ⟨_, hm⟩ := mem_ite_nil h
      rcases List.mem_append.mp hm with h1 | h1
      · exact orient_of_mem_blockWeatheringRules h1
      · exact orient_of_mem_rockCollapseRules (mem_ite_nil h1).2
  · intro xn_list sr dr wr t ht
    rw [add_block_transitions, List.drop_left] at ht
    fin_cases ht <;> rfl

/-- Witness for C2 at a concrete input in each builder. -/
theorem c2_appended_rules_preserve_orientation_witness :
    preservesOrientation
      (⟨(8,0,1), (7,0,1), 1, "weathering"⟩ : Transition) ∧
    preservesOrientation
      (⟨(8,0,1), (BLOCK_ID,0,1), 1, "weathering"⟩ : Transition) ∧
    preservesOrientation
      (⟨(BLOCK_ID,6,2), (BLOCK_ID,7,2), 3, "hit block"⟩ : Transition) := by
  refine ⟨?_, ?_, ?_⟩
  · exact c2_appended_rules_preserve_orientation.1 [] 0 1 0 _ (by decide)
  · exact c2_appended_rules_preserve_orientation.2.1 [] 0 1 0 _ (by decide)
  · exact c2_appended_rules_preserve_orientation.2.2 [] 3 5 7 _ (by decide)

/-- Counterexample for claim C3: in the `BlockHill` variant with
weathering rate 1, the builder appends weathering-labelled rules whose
to-state replaces rock (8) by a block (`BLOCK_ID` = 9) rather than by a
resting grain (7), so it is not true that in every model variant the
weathering rules convert rock/air pairs into resting-grain/air pairs. -/
theorem c3_counterexample :
    ¬ (∀ t ∈ blockhill_add_weathering_and_disturbance_transitions [] 0 1 0,
        t.name = "weathering" →
          (t.to_state.1 = 7 ∨ t.to_state.2.1 = 7)) := by
  decide

lemma filter_weathering_disturbanceRules (d : ℚ) :
    (disturbanceRules d).filter (fun t => t.name == "weathering") = [] := rfl

lemma filter_weathering_weatheringRules (w : ℚ) :
    (weatheringRules w).filter (fun t => t.name == "weathering") =
      weatheringRules w := rfl

lemma filter_weathering_dissolutionRules (diss : ℚ) :
    (dissolutionRules diss).filter (fun t => t.name == "weathering") = [] :=
  rfl

lemma filter_weathering_blockWeatheringRules (w : ℚ) :
    (blockWeatheringRules w).filter (fun t => t.name == "weathering") =
      blockWeatheringRules w := rfl

lemma filter_weathering_rockCollapseRules (cr : ℚ) :
    (rockCollapseRules cr).filter (fun t => t.name == "weathering") = [] :=
  rfl

/-- Claim C3, amended: whenever the weathering rate is strictly positive,
each rule builder appends exactly 6 weathering-labelled rules, one per
lattice orientation and endpoint order.  In `GrainFacetSimulator` they
convert a rock (8) / air (0) pair into a resting-grain (7) / air pair
(the air endpoint unchanged); in `BlockHill` they instead convert the
rock endpoint into a block (`BLOCK_ID` = 9), the air endpoint unchanged. -/
theorem c3_amended_weathering_rules (xn_list : List Transition)
    (d w diss cr : ℚ) (hw : 0 < w) :
    ((add_weathering_and_disturbance_transitions xn_list d w diss).drop
        xn_list.length).filter (fun t => t.name == "weathering") =
      weatheringRules w ∧
    ((blockhill_add_weathering_and_disturbance_transitions
        xn_list d w cr).drop
        xn_list.length).filter (fun t => t.name == "weathering") =
      blockWeatheringRules w ∧
    (weatheringRules w).length = 6 ∧
    (blockWeatheringRules w).length = 6 ∧
    (∀ t ∈ weatheringRules w, t.rate = w ∧
      ((t.from_state.1 = 8 ∧ t.from_state.2.1 = 0 ∧
        t.to_state.1 = 7 ∧ t.to_state.2.1 = 0) ∨
       (t.from_state.1 = 0 ∧ t.from_state.2.1 = 8 ∧
        t.to_state.1 = 0 ∧ t.to_state.2.1 = 7))) ∧
    (∀ t ∈ blockWeatheringRules w, t.rate = w ∧
      ((t.from_state.1 = 8 ∧ t.from_state.2.1 = 0 ∧
        t.to_state.1 = BLOCK_ID ∧ t.to_state.2.1 = 0) ∨
       (t.from_state.1 = 0 ∧ t.from_state.2.1 = 8 ∧
        t.to_state.1 = 0 ∧ t.to_state.2.1 = BLOCK_ID))) := by
  refine ⟨?_, ?_, rfl, rfl, ?_, ?_⟩
  · rw [awdt_eq_append, List.drop_left, List.filter_append,
        List.filter_append, if_pos hw, filter_weathering_weatheringRules]
    by_cases hd : 0 < d <;> by_cases hdiss : 0 < diss <;>
      simp [hd, hdiss, filter_weathering_disturbanceRules,
            filter_weathering_dissolutionRules]
  · rw [blockhill_awdt_eq_append, List.drop_left, List.filter_append,
        if_pos hw, List.filter_append,
        filter_weathering_blockWeatheringRules]
    by_cases hd : 0 < d <;> by_cases hcr : 0 < cr <;>
      simp [hd, hcr, filter_weathering_disturbanceRules,
            filter_weathering_rockCollapseRules]
  · intro t ht; fin_cases ht <;> simp [weatheringRules]
  · intro t ht; fin_cases ht <;> simp [blockWeatheringRules, BLOCK_ID]

/-- Witness for the amended C3 at a concrete input. -/
theorem c3_amended_weathering_rules_witness :
    ((add_weathering_and_disturbance_transitions [] 0 1 0).drop 0).filter
        (fun t => t.name == "weathering") = weatheringRules 1 ∧
    ((blockhill_add_weathering_and_disturbance_transitions [] 0 1 0).drop
        0).filter (fun t => t.name == "weathering") =
      blockWeatheringRules 1 := by
  obtain ⟨h1, h2, -⟩ :=
    c3_amended_weathering_rules [] 0 1 0 0 (by norm_num)
  exact ⟨h1, h2⟩

lemma name_of_mem_disturbanceRules {d : ℚ} {t : Transition}
    (ht : t ∈ disturbanceRules d) : t.name = "disturbance" := by
  fin_cases ht <;> rfl

lemma name_of_mem_blockWeatheringRules {w : ℚ} {t : Transition}
    (ht : t ∈ blockWeatheringRules w) : t.name = "weathering" := by
  fin_cases ht <;> rfl

/-- Claim C10: in `BlockHill.add_weathering_and_disturbance_transitions`
the "rock collapse" rule is appended if and only if both the weathering
rate and the collapse rate are strictly positive; in particular, for any
`collapse_rate > 0`, setting the weathering rate to 0 silently disables
rock collapse. -/
theorem c10_rock_collapse_needs_weathering
    (xn_list : List Transition) (d w cr : ℚ) :
    (∃ t ∈ (blockhill_add_weathering_and_disturbance_transitions
              xn_list d w cr).drop xn_list.length,
        t.name = "rock collapse") ↔ (0 < w ∧ 0 < cr) := by
  rw [blockhill_awdt_eq_append, List.drop_left]
  constructor
  · rintro ⟨t, ht, hname⟩
    rcases List.mem_append.mp ht with h | h
    · exact absurd hname (by rw [name_of_mem_disturbanceRules (mem_ite_nil h).2]; decide)
    · obtain ⟨hwpos, hm⟩ := mem_ite_nil h
      rcases List.mem_append.mp hm with h1 | h1
      · exact absurd hname
          (by rw [name_of_mem_blockWeatheringRules h1]; decide)
      · exact ⟨hwpos, (mem_ite_nil h1).1⟩
  · rintro ⟨hw, hcr⟩
    refine ⟨⟨(0,8,0), (0,BLOCK_ID,0), cr, "rock collapse"⟩, ?_, rfl⟩
    simp [hw, hcr, rockCollapseRules]

/-- Witness for C10: with weathering and collapse rates both 1, the rock
collapse rule is present. -/
theorem c10_rock_collapse_needs_weathering_witness :
    ∃ t ∈ (blockhill_add_weathering_and_disturbance_transitions
            [] 0 1 1).drop 0, t.name = "rock collapse" :=
  (c10_rock_collapse_needs_weathering [] 0 1 1).mpr
    ⟨by norm_num, by norm_num⟩

/-- `row_col_to_id` (`cosmogenic_irradiator.py` lines 14-28): the ID of
the node at a given row and column of the staggered vertical-rect hex
grid. -/
def row_col_to_id (row col num_cols : ℕ) : ℕ :=
  row * num_cols + col / 2 + col % 2 * ((num_cols + 1) / 2)

/-- `GrainFacetSimulator.nodes_in_column` (`grain_facet_model.py` lines
251-269): `np.arange(base_node, num_rows * num_cols, num_cols)` with
`base_node = (col // 2) + (col % 2) * ((num_cols + 1) // 2)`; the arange
length is the usual ceiling `(stop - start + step - 1) / step`. -/
def nodes_in_column (col num_rows num_cols : ℕ) : List ℕ :=
  let base_node := col / 2 + col % 2 * ((num_cols + 1) / 2)
  let num_nodes := num_rows * num_cols
  List.range' base_node
    ((num_nodes - base_node + (num_cols - 1)) / num_cols) num_cols

lemma nodes_in_column_eq_range' (col num_rows num_cols : ℕ) :
    nodes_in_column col num_rows num_cols =
      List.range' (col / 2 + col % 2 * ((num_cols + 1) / 2))
        ((num_rows * num_cols -
            (col / 2 + col % 2 * ((num_cols + 1) / 2)) + (num_cols - 1)) /
          num_cols) num_cols := rfl

/-- The column base node sits in the bottom row: it is less than the
number of columns. -/
lemma column_base_lt (col num_cols : ℕ) (hcol : col < num_cols) :
    col / 2 + col % 2 * ((num_cols + 1) / 2) < num_cols := by
  rcases Nat.mod_two_eq_zero_or_one col with h2 | h2 <;> rw [h2] <;> omega

lemma range'_entry (num_rows num_cols r base : ℕ) (hb : base < num_cols)
    (hr : r < num_rows) :
    (List.range' base
        ((num_rows * num_cols - base + (num_cols - 1)) / num_cols)
        num_cols)[r]? = some (base + num_cols * r) := by
  have hM : num_cols ≤ num_rows * num_cols :=
    Nat.le_mul_of_pos_left _ (by omega)
  have hlen :
      (num_rows * num_cols - base + (num_cols - 1)) / num_cols = num_rows := by
    have h1 : num_rows * num_cols - base + (num_cols - 1) =
        (num_cols - 1 - base) + num_rows * num_cols := by
      generalize num_rows * num_cols = M at hM ⊢
      omega
    rw [h1, Nat.add_mul_div_right _ _ (show 0 < num_cols by omega),
        Nat.div_eq_of_lt (by omega)]
    omega
  have hr' : r < (List.range' base
      ((num_rows * num_cols - base + (num_cols - 1)) / num_cols)
      num_cols).length := by
    rw [List.length_range', hlen]; exact hr
  rw [List.getElem?_eq_getElem hr', List.getElem_range']

/-- Claim C9: the two staggered-column node-indexing helpers agree: the
`r`-th entry of `GrainFacetSimulator.nodes_in_column(col)` is exactly
`row_col_to_id(r, col, num_cols)`, for every row `r` and interior-valid
column `col` of any grid. -/
theorem c9_nodes_in_column_agrees_with_row_col_to_id
    (num_rows num_cols r col : ℕ) (hr : r < num_rows)
    (hcol : col < num_cols) :
    (nodes_in_column col num_rows num_cols)[r]? =
      some (row_col_to_id r col num_cols) := by
  rw [nodes_in_column_eq_range',
      range'_entry num_rows num_cols r _ (column_base_lt col num_cols hcol) hr]
  congr 1
  rw [row_col_to_id, Nat.mul_comm num_cols r]
  ring

/-- Witness for C9 at the grid of the source's doctest
(`nodes_in_column(4, 3, 5)` is `[2, 7, 12]`). -/
theorem c9_nodes_in_column_agrees_witness :
    (nodes_in_column 4 3 5)[1]? = some (row_col_to_id 1 4 5) :=
  c9_nodes_in_column_agrees_with_row_col_to_id 3 5 1 4 (by decide) (by decide)

/-- The grid data consumed by `CosmogenicIrradiator.add_cosmos`: grid
dimensions, per-node particle state, and the particle-identity index
`propid` mapping a node to the particle (hence tracer slot) it holds. -/
structure CosmoGrid where
  num_rows : ℕ
  num_cols : ℕ
  node_state : ℕ → ℕ
  propid : ℕ → ℕ

/-- Loop body of `CosmogenicIrradiator.add_cosmos`
(`cosmogenic_irradiator.py` lines 77-86) for one node of one column, on
the loop state (tracer field, cumulative depth): a non-air node adds
`prod_rate * exp(-cumulative_depth / decay_depth) * duration` to its
particle's tracer slot and advances the cumulative depth by one cell
width; an air node resets its particle's tracer slot to zero and leaves
the depth unchanged.  `expf` abstracts the external `np.exp`. -/
def cosmoStep (g : CosmoGrid) (prod_rate decay_depth : ℚ) (expf : ℚ → ℚ)
    (duration cell_width : ℚ) (c : ℕ) (st : (ℕ → ℚ) × ℚ) (r : ℕ) :
    (ℕ → ℚ) × ℚ :=
  let node_id := row_col_to_id r c g.num_cols
  if g.node_state node_id ≠ 0 then
    let dose_rate := prod_rate * expf (-st.2 / decay_depth)
    (Function.update st.1 (g.propid node_id)
       (st.1 (g.propid node_id) + dose_rate * duration),
     st.2 + cell_width)
  else
    (Function.update st.1 (g.propid node_id) 0, st.2)

/-- Inner loop of `add_cosmos` (lines 76-86): walk the rows of column `c`
from the top row (`num_rows - 1`) down to row 0, with cumulative depth
starting at half a cell width, threading the tracer field through. -/
def add_cosmos_column (g : CosmoGrid) (prod_rate decay_depth : ℚ)
    (expf : ℚ → ℚ) (duration cell_width : ℚ) (c : ℕ) (cosmo : ℕ → ℚ) :
    ℕ → ℚ :=
  ((List.range g.num_rows).reverse.foldl
    (cosmoStep g prod_rate decay_depth expf duration cell_width c)
    (cosmo, cell_width / 2)).1

/-- `CosmogenicIrradiator.add_cosmos` (lines 49-86): the column walk over
every interior column `1 .. num_cols - 2`. -/
def add_cosmos (g : CosmoGrid) (prod_rate decay_depth : ℚ)
    (expf : ℚ → ℚ) (duration cell_width : ℚ) (cosmo : ℕ → ℚ) : ℕ → ℚ :=
  (List.range' 1 (g.num_cols - 2)).foldl
    (fun cos c =>
      add_cosmos_column g prod_rate decay_depth expf duration cell_width c cos)
    cosmo

/-- Number of non-air nodes strictly above row `r` in column `c`. -/
def nonAirAbove (g : CosmoGrid) (c r : ℕ) : ℕ :=
  (List.range' (r + 1) (g.num_rows - (r + 1))).countP
    (fun rr => decide (g.node_state (row_col_to_id rr c g.num_cols) ≠ 0))

/-- The cumulative depth after folding the column walk over a row list
grows by one cell width per non-air node visited. -/
lemma foldl_cosmoStep_snd (g : CosmoGrid) (p dd : ℚ) (expf : ℚ → ℚ)
    (dur cw : ℚ) (c : ℕ) :
    ∀ (L : List ℕ) (st : (ℕ → ℚ) × ℚ),
      (L.foldl (cosmoStep g p dd expf dur cw c) st).2 =
        st.2 + cw * (L.countP
          (fun rr => decide (g.node_state (row_col_to_id rr c g.num_cols) ≠ 0)) :
            ℕ) := by
  intro L
  induction L with
  | nil => intro st; simp
  | cons r L ih =>
    intro st
    rw [List.foldl_cons, ih, List.countP_cons]
    by_cases hair : g.node_state (row_col_to_id r c g.num_cols) ≠ 0
    · simp [cosmoStep, hair]
      ring
    · simp [cosmoStep, hair]

/-- A tracer slot not owned by any node of the row list is unchanged by
the column walk. -/
lemma foldl_cosmoStep_untouched (g : CosmoGrid) (p dd : ℚ) (expf : ℚ → ℚ)
    (dur cw : ℚ) (c : ℕ) :
    ∀ (L : List ℕ) (st : (ℕ → ℚ) × ℚ) (x : ℕ),
      (∀ r ∈ L, g.propid (row_col_to_id r c g.num_cols) ≠ x) →
      (L.foldl (cosmoStep g p dd expf dur cw c) st).1 x = st.1 x := by
  intro L
  induction L with
  | nil => intro st x _; rfl
  | cons r L ih =>
    intro st x hx
    rw [List.foldl_cons, ih _ x (fun r' hr' => hx r' (List.mem_cons_of_mem _ hr'))]
    have hne : g.propid (row_col_to_id r c g.num_cols) ≠ x :=
      hx r (List.mem_cons_self _ _)
    by_cases hair : g.node_state (row_col_to_id r c g.num_cols) ≠ 0 <;>
      simp [cosmoStep, hair, Function.update_noteq (Ne.symm hne)]

/-- Value of the tracer slot of row `r`'s particle after folding the
column walk over `L1 ++ r :: L2`, when no node of `L2` shares that slot:
a non-air node accumulates one dose at the depth reached after `L1`, an
air node is reset to zero. -/
lemma foldl_cosmoStep_split (g : CosmoGrid) (p dd : ℚ) (expf : ℚ → ℚ)
    (dur cw : ℚ) (c : ℕ) (L1 L2 : List ℕ) (r : ℕ) (st : (ℕ → ℚ) × ℚ)
    (hL2 : ∀ r' ∈ L2, g.propid (row_col_to_id r' c g.num_cols) ≠
            g.propid (row_col_to_id r c g.num_cols)) :
    ((L1 ++ r :: L2).foldl (cosmoStep g p dd expf dur cw c) st).1
        (g.propid (row_col_to_id r c g.num_cols)) =
      if g.node_state (row_col_to_id r c g.num_cols) ≠ 0 then
        (L1.foldl (cosmoStep g p dd expf dur cw c) st).1
            (g.propid (row_col_to_id r c g.num_cols)) +
          p * expf (-(L1.foldl (cosmoStep g p dd expf dur cw c) st).2 / dd)
            * dur
      else 0 := by
  rw [List.foldl_append, List.foldl_cons,
      foldl_cosmoStep_untouched g p dd expf dur cw c L2 _ _ hL2]
  by_cases hair : g.node_state (row_col_to_id r c g.num_cols) ≠ 0 <;>
    simp [cosmoStep, hair]

/-- Decomposition of the descending row list at row `r`. -/
lemma reverse_range_split (n r : ℕ) (hr : r < n) :
    (List.range n).reverse =
      (List.range' (r + 1) (n - (r + 1))).reverse ++
        r :: (List.range r).reverse := by
  have h1 : List.range n =
      List.range r ++ r :: List.range' (r + 1) (n - (r + 1)) := by
    rw [List.range_eq_range', List.range_eq_range']
    have h2 : (r : ℕ) :: List.range' (r + 1) (n - (r + 1)) =
        List.range' r (n - (r + 1) + 1) := by
      rw [List.range'_succ]
    rw [h2]
    have h3 := List.range'_append_1 0 r (n - (r + 1) + 1)
    rw [Nat.zero_add] at h3
    rw [h3]
    congr 1
    omega
  rw [h1, List.reverse_append, List.reverse_cons, List.append_assoc,
      List.singleton_append]

/-- Tracer value of the particle at row `r` of column `c` after the walk
of that single column, assuming distinct nodes hold distinct particles:
a non-air node gains a dose attenuated by half a cell plus one cell per
non-air node above it; an air node's slot is reset to zero. -/
lemma add_cosmos_column_value (g : CosmoGrid) (p dd : ℚ) (expf : ℚ → ℚ)
    (dur cw : ℚ) (c r : ℕ) (cosmo : ℕ → ℚ)
    (hinj : Function.Injective g.propid) (hnc : 0 < g.num_cols)
    (hr : r < g.num_rows) :
    add_cosmos_column g p dd expf dur cw c cosmo
        (g.propid (row_col_to_id r c g.num_cols)) =
      if g.node_state (row_col_to_id r c g.num_cols) ≠ 0 then
        cosmo (g.propid (row_col_to_id r c g.num_cols)) +
          p * expf (-(cw / 2 + cw * (nonAirAbove g c r : ℕ)) / dd) * dur
      else 0 := by
  rw [add_cosmos_column, reverse_range_split g.num_rows r hr,
      foldl_cosmoStep_split]
  · rw [foldl_cosmoStep_untouched, foldl_cosmoStep_snd]
    · rw [List.countP_reverse, nonAirAbove]
    · intro r' hr' heq
      have hr'' : r' ∈ List.range' (r + 1) (g.num_rows - (r + 1)) :=
        List.mem_reverse.mp hr'
      have hlt : r + 1 ≤ r' := (List.mem_range'_1.mp hr'').1
      have := hinj heq
      rw [row_col_to_id, row_col_to_id] at this
      have : r' * g.num_cols = r * g.num_cols := by omega
      have : r' = r := Nat.eq_of_mul_eq_mul_right hnc this
      omega
  · intro r' hr' heq
    have hr'' : r' ∈ List.range r := List.mem_reverse.mp hr'
    have hlt : r' < r := List.mem_range.mp hr''
    have := hinj heq
    rw [row_col_to_id, row_col_to_id] at this
    have : r' * g.num_cols = r * g.num_cols := by omega
    have : r' = r := Nat.eq_of_mul_eq_mul_right hnc this
    omega

/-- A tracer slot owned by no node of column `c` is unchanged by that
column's walk. -/
lemma add_cosmos_column_untouched (g : CosmoGrid) (p dd : ℚ) (expf : ℚ → ℚ)
    (dur cw : ℚ) (c : ℕ) (cosmo : ℕ → ℚ) (x : ℕ)
    (hx : ∀ r < g.num_rows, g.propid (row_col_to_id r c g.num_cols) ≠ x) :
    add_cosmos_column g p dd expf dur cw c cosmo x = cosmo x := by
  rw [add_cosmos_column, foldl_cosmoStep_untouched]
  intro r hrm
  exact hx r (List.mem_range.mp (List.mem_reverse.mp hrm))

/-- Distinct (row, column) pairs with valid columns map to distinct node
IDs. -/
lemma row_col_to_id_inj (num_cols r1 c1 r2 c2 : ℕ) (h1 : c1 < num_cols)
    (h2 : c2 < num_cols)
    (heq : row_col_to_id r1 c1 num_cols = row_col_to_id r2 c2 num_cols) :
    r1 = r2 ∧ c1 = c2 := by
  have hb1 := column_base_lt c1 num_cols h1
  have hb2 := column_base_lt c2 num_cols h2
  rw [row_col_to_id, row_col_to_id] at heq
  have hform : ∀ r b : ℕ, r * num_cols + b = b + r * num_cols := by
    intro r b; omega
  rw [Nat.add_assoc, Nat.add_assoc, hform, hform] at heq
  have hmod := congrArg (· % num_cols) heq
  have hdiv := congrArg (· / num_cols) heq
  simp only [Nat.add_mul_mod_self_right,
    Nat.add_mul_div_right _ _ (show 0 < num_cols by omega)] at hmod hdiv
  rw [Nat.mod_eq_of_lt hb1, Nat.mod_eq_of_lt hb2] at hmod
  rw [Nat.div_eq_of_lt hb1, Nat.div_eq_of_lt hb2] at hdiv
  refine ⟨by omega, ?_⟩
  rcases Nat.mod_two_eq_zero_or_one c1 with e1 | e1 <;>
    rcases Nat.mod_two_eq_zero_or_one c2 with e2 | e2 <;>
    rw [e1, e2] at hmod <;> omega

/-- A tracer slot owned by no node of any of the listed columns is
unchanged by folding the column walk over them. -/
lemma foldl_columns_untouched (g : CosmoGrid) (p dd : ℚ) (expf : ℚ → ℚ)
    (dur cw : ℚ) :
    ∀ (cols : List ℕ) (cosmo : ℕ → ℚ) (x : ℕ),
      (∀ c' ∈ cols, ∀ r' < g.num_rows,
        g.propid (row_col_to_id r' c' g.num_cols) ≠ x) →
      (cols.foldl
        (fun cos c => add_cosmos_column g p dd expf dur cw c cos) cosmo) x =
        cosmo x := by
  intro cols
  induction cols with
  | nil => intro cosmo x _; rfl
  | cons c' cols ih =>
    intro cosmo x hx
    rw [List.foldl_cons,
        ih _ x (fun c'' hc'' => hx c'' (List.mem_cons_of_mem _ hc''))]
    exact add_cosmos_column_untouched g p dd expf dur cw c' cosmo x
      (hx c' (List.mem_cons_self _ _))

/-- Decomposition of the interior-column list at column `c`. -/
lemma interior_columns_split (num_cols c : ℕ) (hc1 : 1 ≤ c)
    (hc2 : c + 2 ≤ num_cols) :
    List.range' 1 (num_cols - 2) =
      List.range' 1 (c - 1) ++ c :: List.range' (c + 1) (num_cols - 2 - c) := by
  have h2 : (c : ℕ) :: List.range' (c + 1) (num_cols - 2 - c) =
      List.range' c (num_cols - 2 - c + 1) := by
    rw [List.range'_succ]
  rw [h2]
  have h3 := List.range'_append_1 1 (c - 1) (num_cols - 2 - c + 1)
  have h4 : 1 + (c - 1) = c := by omega
  rw [h4] at h3
  rw [h3]
  congr 1
  omega

/-- Full characterization of `add_cosmos` at the particle of row `r` of
interior column `c`, assuming distinct nodes hold distinct particles: an
air node's slot ends at zero; a non-air node's slot gains
`prod_rate * exp(-(cw/2 + cw * nonAirAbove) / decay_depth) * duration`,
the cumulative depth counting only the non-air nodes above it in the
column. -/
lemma add_cosmos_value (g : CosmoGrid) (p dd : ℚ) (expf : ℚ → ℚ)
    (dur cw : ℚ) (c r : ℕ) (cosmo : ℕ → ℚ)
    (hinj : Function.Injective g.propid) (hc1 : 1 ≤ c)
    (hc2 : c + 2 ≤ g.num_cols) (hr : r < g.num_rows) :
    add_cosmos g p dd expf dur cw cosmo
        (g.propid (row_col_to_id r c g.num_cols)) =
      if g.node_state (row_col_to_id r c g.num_cols) ≠ 0 then
        cosmo (g.propid (row_col_to_id r c g.num_cols)) +
          p * expf (-(cw / 2 + cw * (nonAirAbove g c r : ℕ)) / dd) * dur
      else 0 := by
  have hnc : 0 < g.num_cols := by omega
  have hcn : c < g.num_cols := by omega
  have hother : ∀ c' ∈ List.range' (c + 1) (g.num_cols - 2 - c),
      ∀ r' < g.num_rows, g.propid (row_col_to_id r' c' g.num_cols) ≠
        g.propid (row_col_to_id r c g.num_cols) := by
    intro c' hc' r' _ heq
    have hc'' := List.mem_range'_1.mp hc'
    have hc'lt : c' < g.num_cols := by omega
    have := (row_col_to_id_inj g.num_cols r' c' r c hc'lt hcn (hinj heq)).2
    omega
  have hbefore : ∀ c' ∈ List.range' 1 (c - 1),
      ∀ r' < g.num_rows, g.propid (row_col_to_id r' c' g.num_cols) ≠
        g.propid (row_col_to_id r c g.num_cols) := by
    intro c' hc' r' _ heq
    have hc'' := List.mem_range'_1.mp hc'
    have hc'lt : c' < g.num_cols := by omega
    have := (row_col_to_id_inj g.num_cols r' c' r c hc'lt hcn (hinj heq)).2
    omega
  rw [add_cosmos, interior_columns_split g.num_cols c hc1 hc2,
      List.foldl_append, List.foldl_cons,
      foldl_columns_untouched g p dd expf dur cw _ _ _ hother,
      add_cosmos_column_value g p dd expf dur cw c r _ hinj hnc hr,
      foldl_columns_untouched g p dd expf dur cw _ _ _ hbefore]

/-- A 2-row, 3-column grid whose single interior column (column 1) has an
air node on top (node 5) and a rock node below it (node 2); every node
holds its own particle. -/
def airTopGrid : CosmoGrid :=
  ⟨2, 3, fun n => if n = 2 then 8 else 0, fun n => n⟩

/-- Counterexample for claim C4: on `airTopGrid` the topmost node of
interior column 1 is air, yet the call still visits the node below it and
adds a dose to that node's tracer slot (it ends nonzero although it
started at zero) — the walk does not stop at the first air node. -/
theorem c4_counterexample :
    airTopGrid.node_state (row_col_to_id 1 1 airTopGrid.num_cols) = 0 ∧
    airTopGrid.node_state (row_col_to_id 0 1 airTopGrid.num_cols) ≠ 0 ∧
    add_cosmos airTopGrid 1 1 (fun _ => 1) 1 1 (fun _ => 0)
      (airTopGrid.propid (row_col_to_id 0 1 airTopGrid.num_cols)) ≠ 0 := by
  refine ⟨rfl, by decide, ?_⟩
  rw [add_cosmos_value airTopGrid 1 1 (fun _ => 1) 1 1 1 0 (fun _ => 0)
        (fun a b h => h) (by decide) (by decide) (by decide)]
  norm_num [airTopGrid, row_col_to_id]

/-- Claim C4, amended: the accumulator walks every interior column from
the topmost node downward; upon encountering an air node it resets that
position's tracer value to zero but continues to the nodes below, an air
node contributing nothing to the cumulative depth.  Hence the tracer slot
of row `r` of interior column `c` ends at zero if that node is air, and
otherwise gains one dose attenuated by half a cell width plus one cell
width per non-air node above it in the column. -/
theorem c4_amended_air_resets_and_walk_continues (g : CosmoGrid)
    (p dd : ℚ) (expf : ℚ → ℚ) (dur cw : ℚ) (c r : ℕ) (cosmo : ℕ → ℚ)
    (hinj : Function.Injective g.propid) (hc1 : 1 ≤ c)
    (hc2 : c + 2 ≤ g.num_cols) (hr : r < g.num_rows) :
    add_cosmos g p dd expf dur cw cosmo
        (g.propid (row_col_to_id r c g.num_cols)) =
      if g.node_state (row_col_to_id r c g.num_cols) ≠ 0 then
        cosmo (g.propid (row_col_to_id r c g.num_cols)) +
          p * expf (-(cw / 2 + cw * (nonAirAbove g c r : ℕ)) / dd) * dur
      else 0 :=
  add_cosmos_value g p dd expf dur cw c r cosmo hinj hc1 hc2 hr

/-- Witness for the amended C4: on `airTopGrid` the rock node below the
air top of column 1 receives the surface dose (depth `cw / 2`, the air
node above contributing no depth). -/
theorem c4_amended_air_resets_witness :
    add_cosmos airTopGrid 1 1 (fun _ => 1) 1 1 (fun _ => 0)
      (airTopGrid.propid (row_col_to_id 0 1 airTopGrid.num_cols)) = 1 := by
  rw [c4_amended_air_resets_and_walk_continues airTopGrid 1 1 (fun _ => 1)
        1 1 1 0 (fun _ => 0) (fun a b h => h) (by decide) (by decide)
        (by decide)]
  norm_num [airTopGrid, row_col_to_id]

/-- A 2-row, 3-column grid whose nodes are all rock; every node holds its
own particle. -/
def allRockGrid : CosmoGrid := ⟨2, 3, fun _ => 8, fun n => n⟩

/-- Claim C5: after a single `add_cosmos(duration, cell_width)` call on a
grid whose tracer field starts all zero, every interior column `c` all of
whose nodes are non-air ends with the particle of its `i`-th node from
the top (0-indexed) carrying tracer value
`prod_rate * exp(-((i + 1/2) * cell_width) / decay_depth) * duration`. -/
theorem c5_full_column_dose (g : CosmoGrid) (p dd : ℚ) (expf : ℚ → ℚ)
    (dur cw : ℚ) (c i : ℕ) (hinj : Function.Injective g.propid)
    (hc1 : 1 ≤ c) (hc2 : c + 2 ≤ g.num_cols) (hi : i < g.num_rows)
    (hall : ∀ r < g.num_rows,
      g.node_state (row_col_to_id r c g.num_cols) ≠ 0) :
    add_cosmos g p dd expf dur cw (fun _ => 0)
        (g.propid (row_col_to_id (g.num_rows - 1 - i) c g.num_cols)) =
      p * expf (-(((i : ℚ) + 1 / 2) * cw) / dd) * dur := by
  have hr : g.num_rows - 1 - i < g.num_rows := by omega
  rw [add_cosmos_value g p dd expf dur cw c _ _ hinj hc1 hc2 hr,
      if_pos (hall _ hr)]
  have hcount : nonAirAbove g c (g.num_rows - 1 - i) = i := by
    have hlen : g.num_rows - (g.num_rows - 1 - i + 1) = i := by omega
    rw [nonAirAbove, hlen]
    have hp : ∀ rr ∈ List.range' (g.num_rows - 1 - i + 1) i,
        (fun rr => decide
          (g.node_state (row_col_to_id rr c g.num_cols) ≠ 0)) rr = true := by
      intro rr hrr
      have h1 := List.mem_range'_1.mp hrr
      exact decide_eq_true (hall rr (by omega))
    rw [List.countP_eq_length.mpr hp, List.length_range']
  rw [hcount]
  have harg : -(cw / 2 + cw * (i : ℚ)) / dd = -(((i : ℚ) + 1 / 2) * cw) / dd := by
    ring_nf
  rw [harg]
  ring

/-- Witness for C5 on `allRockGrid`: the bottom node (i = 1 from the top)
of interior column 1 receives the dose at depth `3/2` cells. -/
theorem c5_full_column_dose_witness :
    add_cosmos allRockGrid 1 1 (fun q => q) 1 1 (fun _ => 0)
        (allRockGrid.propid (row_col_to_id (allRockGrid.num_rows - 1 - 1) 1
          allRockGrid.num_cols)) =
      1 * (fun q => q) (-((((1 : ℕ) : ℚ) + 1 / 2) * 1) / 1) * 1 :=
  c5_full_column_dose allRockGrid 1 1 (fun q => q) 1 1 1 1
    (fun a b h => h) (by decide) (by decide) (by decide)
    (fun r _ => by simp [allRockGrid, row_col_to_id])

/-- The link and node data consumed by `SlopeMeasurer`
(`slope_measurer.py`): the links as (tail node, head node, orientation)
triples and the per-node particle states. -/
structure LinkGrid where
  links : List (ℕ × ℕ × ℕ)
  node_state : ℕ → ℕ

/-- The engine's cached link state (spec data-model invariant: a link
state is always the triple (tail state, head state, orientation) derived
from the endpoint node states). -/
def link_state (g : LinkGrid) (l : ℕ × ℕ × ℕ) : ℕ × ℕ × ℕ :=
  (g.node_state l.1, g.node_state l.2.1, l.2.2)

/-- `SlopeMeasurer.__init__` (lines 34-37): the tracked rock states —
rock only, or rock plus static regolith. -/
def rock_options_of (pick_only_rock : Bool)
    (rock_id static_regolith_id : ℕ) : List ℕ :=
  if pick_only_rock then [rock_id] else [rock_id, static_regolith_id]

/-- `SlopeMeasurer.__init__` (lines 38-51): scan the link-state
dictionary keys and keep the air-rock states together with which end (0 =
tail, 1 = head) carries the rock/regolith node. -/
def airrock_selectors (state_options : List (ℕ × ℕ × ℕ))
    (rock_options : List ℕ) (air_id : ℕ) : List ((ℕ × ℕ × ℕ) × ℕ) :=
  state_options.foldr (fun opt acc =>
    if opt.1 ∈ rock_options then
      if opt.2.1 = air_id then (opt, 0) :: acc else acc
    else if opt.1 = air_id then
      if opt.2.1 ∈ rock_options then (opt, 1) :: acc else acc
    else acc) []

/-- `SlopeMeasurer.pick_rock_surface` (lines 53-83): for every air-rock
selector collect the rock-end nodes of the links in that link state, then
deduplicate (the Python `set`) and sort ascending (`ndarray.sort`). -/
def pick_rock_surface (g : LinkGrid)
    (selectors : List ((ℕ × ℕ × ℕ) × ℕ)) : List ℕ :=
  let rock_nodes := selectors.foldl (fun acc sel =>
    acc ++ (g.links.filter (fun l => link_state g l = sel.1)).map
      (fun l => if sel.2 = 0 then l.1 else l.2.1)) []
  List.insertionSort (· ≤ ·) rock_nodes.dedup

/-- Soundness of the selector scan: every selector is an air-rock state
with the rock end recorded. -/
lemma mem_airrock_selectors {state_options : List (ℕ × ℕ × ℕ)}
    {rock_options : List ℕ} {air_id : ℕ} {sel : (ℕ × ℕ × ℕ) × ℕ}
    (h : sel ∈ airrock_selectors state_options rock_options air_id) :
    (sel.2 = 0 ∧ sel.1.1 ∈ rock_options ∧ sel.1.2.1 = air_id) ∨
    (sel.2 = 1 ∧ sel.1.1 = air_id ∧ sel.1.2.1 ∈ rock_options) := by
  induction state_options with
  | nil => simp [airrock_selectors] at h
  | cons opt rest ih =>
    rw [airrock_selectors, List.foldr_cons] at h
    by_cases h1 : opt.1 ∈ rock_options
    · rw [if_pos h1] at h
      by_cases h2 : opt.2.1 = air_id
      · rw [if_pos h2] at h
        rcases List.mem_cons.mp h with rfl | h3
        · exact Or.inl ⟨rfl, h1, h2⟩
        · exact ih h3
      · rw [if_neg h2] at h; exact ih h
    · rw [if_neg h1] at h
      by_cases h2 : opt.1 = air_id
      · rw [if_pos h2] at h
        by_cases h3 : opt.2.1 ∈ rock_options
        · rw [if_pos h3] at h
          rcases List.mem_cons.mp h with rfl | h4
          · exact Or.inr ⟨rfl, h2, h3⟩
          · exact ih h4
        · rw [if_neg h3] at h; exact ih h
      · rw [if_neg h2] at h; exact ih h

/-- Completeness of the selector scan for rock-air states (rock end 0). -/
lemma airrock_selectors_complete0 {state_options : List (ℕ × ℕ × ℕ)}
    {rock_options : List ℕ} {air_id : ℕ} {opt : ℕ × ℕ × ℕ}
    (ho : opt ∈ state_options) (h1 : opt.1 ∈ rock_options)
    (h2 : opt.2.1 = air_id) :
    (opt, 0) ∈ airrock_selectors state_options rock_options air_id := by
  induction state_options with
  | nil => simp at ho
  | cons o rest ih =>
    rw [airrock_selectors, List.foldr_cons]
    rcases List.mem_cons.mp ho with rfl | ho'
    · rw [if_pos h1, if_pos h2]
      exact List.mem_cons_self _ _
    · have hrest := ih ho'
      rw [airrock_selectors] at hrest
      by_cases g1 : o.1 ∈ rock_options
      · rw [if_pos g1]
        by_cases g2 : o.2.1 = air_id
        · rw [if_pos g2]; exact List.mem_cons_of_mem _ hrest
        · rw [if_neg g2]; exact hrest
      · rw [if_neg g1]
        by_cases g2 : o.1 = air_id
        · rw [if_pos g2]
          by_cases g3 : o.2.1 ∈ rock_options
          · rw [if_pos g3]; exact List.mem_cons_of_mem _ hrest
          · rw [if_neg g3]; exact hrest
        · rw [if_neg g2]; exact hrest

/-- Completeness of the selector scan for air-rock states (rock end 1),
assuming the air state is not itself in the rock set. -/
lemma airrock_selectors_complete1 {state_options : List (ℕ × ℕ × ℕ)}
    {rock_options : List ℕ} {air_id : ℕ} {opt : ℕ × ℕ × ℕ}
    (ho : opt ∈ state_options) (h1 : opt.1 = air_id)
    (h2 : opt.2.1 ∈ rock_options) (hair : air_id ∉ rock_options) :
    (opt, 1) ∈ airrock_selectors state_options rock_options air_id := by
  induction state_options with
  | nil => simp at ho
  | cons o rest ih =>
    rw [airrock_selectors, List.foldr_cons]
    rcases List.mem_cons.mp ho with rfl | ho'
    · rw [if_neg (h1 ▸ hair), if_pos h1, if_pos h2]
      exact List.mem_cons_self _ _
    · have hrest := ih ho'
      rw [airrock_selectors] at hrest
      by_cases g1 : o.1 ∈ rock_options
      · rw [if_pos g1]
        by_cases g2 : o.2.1 = air_id
        · rw [if_pos g2]; exact List.mem_cons_of_mem _ hrest
        · rw [if_neg g2]; exact hrest
      · rw [if_neg g1]
        by_cases g2 : o.1 = air_id
        · rw [if_pos g2]
          by_cases g3 : o.2.1 ∈ rock_options
          · rw [if_pos g3]; exact List.mem_cons_of_mem _ hrest
          · rw [if_neg g3]; exact hrest
        · rw [if_neg g2]; exact hrest

/-- The collecting fold of `pick_rock_surface` as a flat list. -/
lemma foldl_collect_eq {α : Type} (h : α → List ℕ) :
    ∀ (sels : List α) (acc : List ℕ),
      sels.foldl (fun acc sel => acc ++ h sel) acc =
        acc ++ (sels.map h).flatten := by
  intro sels
  induction sels with
  | nil => intro acc; simp
  | cons s rest ih => intro acc; simp [ih]

/-- Membership in the raw collected rock-node list. -/
lemma mem_collected (g : LinkGrid) (selectors : List ((ℕ × ℕ × ℕ) × ℕ))
    (n : ℕ) :
    (n ∈ selectors.foldl (fun acc sel =>
        acc ++ (g.links.filter (fun l => link_state g l = sel.1)).map
          (fun l => if sel.2 = 0 then l.1 else l.2.1)) []) ↔
      ∃ sel ∈ selectors, ∃ l ∈ g.links, link_state g l = sel.1 ∧
        n = (if sel.2 = 0 then l.1 else l.2.1) := by
  rw [foldl_collect_eq, List.nil_append, List.mem_flatten]
  constructor
  · rintro ⟨s, hs, hns⟩
    obtain ⟨sel, hsel, rfl⟩ := List.mem_map.mp hs
    obtain ⟨l, hl, rfl⟩ := List.mem_map.mp hns
    obtain ⟨hlg, hls⟩ := List.mem_filter.mp hl
    exact ⟨sel, hsel, l, hlg, of_decide_eq_true hls, rfl⟩
  · rintro ⟨sel, hsel, l, hl, hls, rfl⟩
    refine ⟨_, List.mem_map.mpr ⟨sel, hsel, rfl⟩, ?_⟩
    exact List.mem_map.mpr
      ⟨l, List.mem_filter.mpr ⟨hl, decide_eq_true hls⟩, rfl⟩

/-- The surface predicate of the spec: the node's own state is in the
rock set and it is an endpoint of a link whose other endpoint is air. -/
def onRockSurface (g : LinkGrid) (rock_options : List ℕ) (air_id n : ℕ) :
    Prop :=
  g.node_state n ∈ rock_options ∧ ∃ l ∈ g.links,
    (l.1 = n ∧ g.node_state l.2.1 = air_id) ∨
    (l.2.1 = n ∧ g.node_state l.1 = air_id)

instance (g : LinkGrid) (rock_options : List ℕ) (air_id n : ℕ) :
    Decidable (onRockSurface g rock_options air_id n) := by
  unfold onRockSurface; infer_instance

/-- `pick_rock_surface` collects exactly the spec's surface nodes, given
that the link-state dictionary contains every link state realized on the
grid and that the air state is not in the rock set. -/
lemma pick_rock_surface_spec (g : LinkGrid)
    (state_options : List (ℕ × ℕ × ℕ)) (rock_options : List ℕ) (air_id : ℕ)
    (hcomplete : ∀ l ∈ g.links, link_state g l ∈ state_options)
    (hair : air_id ∉ rock_options) :
    (pick_rock_surface g
        (airrock_selectors state_options rock_options air_id)).Sorted
        (· < ·) ∧
    ∀ n, n ∈ pick_rock_surface g
        (airrock_selectors state_options rock_options air_id) ↔
      onRockSurface g rock_options air_id n := by
  have hperm := List.perm_insertionSort (α := ℕ) (· ≤ ·)
  constructor
  · have hsorted := List.sorted_insertionSort (α := ℕ) (· ≤ ·)
    refine List.Sorted.lt_of_le (hsorted _) ?_
    exact ((hperm _).nodup_iff).mpr (List.nodup_dedup _)
  · intro n
    rw [pick_rock_surface]
    rw [(hperm _).mem_iff, List.mem_dedup, mem_collected]
    constructor
    · rintro ⟨sel, hsel, l, hl, hls, rfl⟩
      rcases mem_airrock_selectors hsel with ⟨he, hrock, hairend⟩ |
          ⟨he, hairend, hrock⟩
      · rw [he]; simp only [if_pos rfl]
        have h1 : g.node_state l.1 = sel.1.1 := congrArg Prod.fst hls
        have h2 : g.node_state l.2.1 = sel.1.2.1 :=
          congrArg (fun q => q.2.1) hls
        exact ⟨h1 ▸ hrock, l, hl, Or.inl ⟨rfl, h2.trans hairend⟩⟩
      · rw [he]; simp only [if_neg one_ne_zero]
        have h1 : g.node_state l.1 = sel.1.1 := congrArg Prod.fst hls
        have h2 : g.node_state l.2.1 = sel.1.2.1 :=
          congrArg (fun q => q.2.1) hls
        exact ⟨h2 ▸ hrock, l, hl, Or.inr ⟨rfl, h1.trans hairend⟩⟩
    · rintro ⟨hrock, l, hl, ⟨rfl, hairother⟩ | ⟨rfl, hairother⟩⟩
      · refine ⟨(link_state g l, 0), ?_, l, hl, rfl, by simp⟩
        exact airrock_selectors_complete0 (hcomplete l hl) hrock hairother
      · refine ⟨(link_state g l, 1), ?_, l, hl, rfl, by simp⟩
        exact airrock_selectors_complete1 (hcomplete l hl) hairother hrock
          hair

/-- Claim C6: for every grid state, `pick_rock_surface` (with the rock
set chosen per `pick_only_rock`: rock only, or rock plus resting
regolith) returns exactly the nodes whose own state is in the chosen rock
set and which are an endpoint of a link whose other endpoint is air; the
returned list is strictly increasing in node id, hence sorted and free of
duplicates even when a node borders air on several sides.  Hypotheses:
the engine's link-state dictionary covers every realized link state, and
the air state is not in the chosen rock set. -/
theorem c6_pick_rock_surface_exact (g : LinkGrid)
    (state_options : List (ℕ × ℕ × ℕ)) (pick_only_rock : Bool)
    (rock_id static_regolith_id air_id : ℕ)
    (hcomplete : ∀ l ∈ g.links, link_state g l ∈ state_options)
    (hair : air_id ∉ rock_options_of pick_only_rock rock_id
      static_regolith_id) :
    (pick_rock_surface g (airrock_selectors state_options
        (rock_options_of pick_only_rock rock_id static_regolith_id)
        air_id)).Sorted (· < ·) ∧
    ∀ n, n ∈ pick_rock_surface g (airrock_selectors state_options
        (rock_options_of pick_only_rock rock_id static_regolith_id)
        air_id) ↔
      onRockSurface g
        (rock_options_of pick_only_rock rock_id static_regolith_id)
        air_id n :=
  pick_rock_surface_spec g state_options _ air_id hcomplete hair

/-- A 4-node grid: node 0 rock, node 1 air, node 2 regolith, node 3 air,
with a 3-link chain. -/
def wGrid : LinkGrid :=
  ⟨[(0,1,0), (1,2,1), (2,3,2)],
   fun n => if n = 0 then 8 else if n = 2 then 7 else 0⟩

/-- The realized link states of `wGrid`, as dictionary keys. -/
def wStates : List (ℕ × ℕ × ℕ) := [(8,0,0), (0,7,1), (7,0,2)]

/-- Witness for C6 on `wGrid` in rock-only mode: node 0 (rock next to
air) is picked. -/
theorem c6_pick_rock_surface_exact_witness :
    0 ∈ pick_rock_surface wGrid
      (airrock_selectors wStates (rock_options_of true 8 7) 0) :=
  ((c6_pick_rock_surface_exact wGrid wStates true 8 7 0
      (by decide) (by decide)).2 0).mpr (by decide)

/-- `SlopeMeasurer.calc_coords_of_surface_points` (lines 85-150) reduced
to the surface coordinates: the (x, z) pairs of the previously extracted
surface, filtered by the optional strict x-bounds with the source's
branch structure (`min_x` alone, `max_x` alone, both, or neither), then
truncated to the first `first_nodes` entries when requested. -/
def calc_coords_of_surface_points (pts : List (ℚ × ℚ))
    (min_x max_x : Option ℚ) (first_nodes : Option ℕ) : List (ℚ × ℚ) :=
  let filtered :=
    match min_x, max_x with
    | some a, some b =>
        pts.filter (fun p => decide (a < p.1) && decide (p.1 < b))
    | some a, none => pts.filter (fun p => decide (a < p.1))
    | none, some b => pts.filter (fun p => decide (p.1 < b))
    | none, none => pts
  match first_nodes with
  | some k => filtered.take k
  | none => filtered

/-- Sum of the x coordinates of a point list. -/
def sumX (pts : List (ℚ × ℚ)) : ℚ := (pts.map (fun p => p.1)).sum

/-- Sum of the z coordinates of a point list. -/
def sumZ (pts : List (ℚ × ℚ)) : ℚ := (pts.map (fun p => p.2)).sum

/-- Sum of the squared x coordinates of a point list. -/
def sumXX (pts : List (ℚ × ℚ)) : ℚ := (pts.map (fun p => p.1 * p.1)).sum

/-- Sum of the products x·z of a point list. -/
def sumXZ (pts : List (ℚ × ℚ)) : ℚ := (pts.map (fun p => p.1 * p.2)).sum

/-- The determinant of the degree-1 least-squares normal equations. -/
def olsDet (pts : List (ℚ × ℚ)) : ℚ :=
  (pts.length : ℚ) * sumXX pts - sumX pts * sumX pts

/-- Modelled from the spec: `np.polyfit(surface_x, surface_z, 1)` called
by `SlopeMeasurer.fit_straight_line_to_coords` (line 186) is the numpy
collaborator's ordinary least-squares straight-line fit, specified as
"performs an ordinary least-squares line fit"; modelled by the
normal-equation solution (gradient m, intercept c). -/
def fit_straight_line_to_coords (pts : List (ℚ × ℚ)) : ℚ × ℚ :=
  let m := ((pts.length : ℚ) * sumXZ pts - sumX pts * sumZ pts) / olsDet pts
  (m, (sumZ pts - m * sumX pts) / (pts.length : ℚ))

/-- Sum of squared residuals of the line z = m·x + c on a point list. -/
def SSE (pts : List (ℚ × ℚ)) (m c : ℚ) : ℚ :=
  (pts.map (fun p => (p.2 - (m * p.1 + c)) ^ 2)).sum

/-- Sum of residuals weighted by x. -/
def sumRX (pts : List (ℚ × ℚ)) (m c : ℚ) : ℚ :=
  (pts.map (fun p => (p.2 - (m * p.1 + c)) * p.1)).sum

/-- Sum of residuals. -/
def sumR (pts : List (ℚ × ℚ)) (m c : ℚ) : ℚ :=
  (pts.map (fun p => p.2 - (m * p.1 + c))).sum

lemma sumRX_eq (pts : List (ℚ × ℚ)) (m c : ℚ) :
    sumRX pts m c = sumXZ pts - m * sumXX pts - c * sumX pts := by
  induction pts with
  | nil => simp [sumRX, sumXZ, sumXX, sumX]
  | cons p l ih =>
    simp only [sumRX, sumXZ, sumXX, sumX, List.map_cons, List.sum_cons]
      at ih ⊢
    rw [ih]; ring

lemma sumR_eq (pts : List (ℚ × ℚ)) (m c : ℚ) :
    sumR pts m c = sumZ pts - m * sumX pts - c * (pts.length : ℚ) := by
  induction pts with
  | nil => simp [sumR, sumZ, sumX]
  | cons p l ih =>
    simp only [sumR, sumZ, sumX, List.map_cons, List.sum_cons,
      List.length_cons, Nat.cast_succ] at ih ⊢
    rw [ih]; ring

/-- The fitted line satisfies both least-squares normal equations. -/
lemma ols_normal_equations (pts : List (ℚ × ℚ))
    (hn : (pts.length : ℚ) ≠ 0) (hdet : olsDet pts ≠ 0) :
    sumRX pts (fit_straight_line_to_coords pts).1
        (fit_straight_line_to_coords pts).2 = 0 ∧
    sumR pts (fit_straight_line_to_coords pts).1
        (fit_straight_line_to_coords pts).2 = 0 := by
  have hm : (fit_straight_line_to_coords pts).1 =
      ((pts.length : ℚ) * sumXZ pts - sumX pts * sumZ pts) / olsDet pts :=
    rfl
  have hc : (fit_straight_line_to_coords pts).2 =
      (sumZ pts - (((pts.length : ℚ) * sumXZ pts - sumX pts * sumZ pts) /
        olsDet pts) * sumX pts) / (pts.length : ℚ) := rfl
  rw [olsDet] at hdet
  constructor
  · rw [sumRX_eq, hm, hc, olsDet]
    field_simp
    ring
  · rw [sumR_eq, hm, hc, olsDet]
    field_simp
    ring

/-- Shifting the line changes the sum of squared residuals by the two
normal-equation terms plus a sum of squares. -/
lemma SSE_expand (pts : List (ℚ × ℚ)) (m c dm dc : ℚ) :
    SSE pts (m + dm) (c + dc) =
      SSE pts m c - 2 * dm * sumRX pts m c - 2 * dc * sumR pts m c +
        (pts.map (fun p => (dm * p.1 + dc) ^ 2)).sum := by
  induction pts with
  | nil => simp [SSE, sumRX, sumR]
  | cons p l ih =>
    simp only [SSE, sumRX, sumR, List.map_cons, List.sum_cons] at ih ⊢
    rw [ih]; ring

lemma sum_squares_nonneg (pts : List (ℚ × ℚ)) (dm dc : ℚ) :
    0 ≤ (pts.map (fun p => (dm * p.1 + dc) ^ 2)).sum := by
  refine List.sum_nonneg ?_
  rintro x hx
  obtain ⟨p, -, rfl⟩ := List.mem_map.mp hx
  positivity

/-- The normal-equation solution minimizes the sum of squared residuals
over all straight lines. -/
lemma ols_minimizes (pts : List (ℚ × ℚ)) (hn : (pts.length : ℚ) ≠ 0)
    (hdet : olsDet pts ≠ 0) (m' c' : ℚ) :
    SSE pts (fit_straight_line_to_coords pts).1
        (fit_straight_line_to_coords pts).2 ≤ SSE pts m' c' := by
  obtain ⟨h1, h2⟩ := ols_normal_equations pts hn hdet
  have h := SSE_expand pts (fit_straight_line_to_coords pts).1
    (fit_straight_line_to_coords pts).2
    (m' - (fit_straight_line_to_coords pts).1)
    (c' - (fit_straight_line_to_coords pts).2)
  rw [h1, h2, add_sub_cancel, add_sub_cancel] at h
  rw [h]
  have := sum_squares_nonneg pts (m' - (fit_straight_line_to_coords pts).1)
    (c' - (fit_straight_line_to_coords pts).2)
  linarith

/-- `SlopeMeasurer.fit_straight_line_to_surface` (lines 190-258): select
and truncate the surface points, fit the straight line, and derive
`S = |m|` and the dip angle `arctan(S) * 180 / π` in positive degrees
(`np.arctan` and `np.pi` are the real arctangent and π). -/
noncomputable def fit_straight_line_to_surface (pts : List (ℚ × ℚ))
    (min_x max_x : Option ℚ) (first_nodes : Option ℕ) :
    (ℚ × ℚ) × ℚ × ℝ :=
  let polyparams := fit_straight_line_to_coords
    (calc_coords_of_surface_points pts min_x max_x first_nodes)
  (polyparams, |polyparams.1|,
    Real.arctan ((|polyparams.1| : ℚ) : ℝ) * 180 / Real.pi)

/-- The spec's description of the point selection: keep the points whose
x is strictly above `min_x` (when given) and strictly below `max_x` (when
given), then truncate to the first `first_nodes` survivors. -/
def specSurfacePoints (pts : List (ℚ × ℚ)) (min_x max_x : Option ℚ)
    (first_nodes : Option ℕ) : List (ℚ × ℚ) :=
  (pts.filter (fun p => min_x.all (fun a => decide (a < p.1)) &&
      max_x.all (fun b => decide (p.1 < b)))).take
    (first_nodes.getD pts.length)

/-- The source's branch structure implements exactly the spec's strict
range filter followed by truncation. -/
lemma calc_coords_eq_spec (pts : List (ℚ × ℚ)) (min_x max_x : Option ℚ)
    (first_nodes : Option ℕ) :
    calc_coords_of_surface_points pts min_x max_x first_nodes =
      specSurfacePoints pts min_x max_x first_nodes := by
  rcases min_x with _ | a <;> rcases max_x with _ | b <;>
    rcases first_nodes with _ | k <;>
      simp only [calc_coords_of_surface_points, specSurfacePoints,
        Option.all_some, Option.all_none, Option.getD_some, Option.getD_none,
        Bool.true_and, Bool.and_true, List.filter_true, List.take_length] <;>
      first
        | rfl
        | exact (List.take_of_length_le (List.length_filter_le _ _)).symm

/-- Claim C7: `fit_straight_line_to_surface` filters the surface points
by the optional strict x-range, then truncates to the first `first_nodes`
of the survivors (in that precedence), performs an ordinary least-squares
line fit on the selected points — the returned gradient m and intercept c
minimize the sum of squared residuals — and sets `S = |m|` and
`dip_angle = arctan(S) * 180 / π` degrees. -/
theorem c7_fit_straight_line_pipeline (pts : List (ℚ × ℚ))
    (min_x max_x : Option ℚ) (first_nodes : Option ℕ)
    (hn : ((calc_coords_of_surface_points pts min_x max_x
        first_nodes).length : ℚ) ≠ 0)
    (hdet : olsDet (calc_coords_of_surface_points pts min_x max_x
        first_nodes) ≠ 0) :
    calc_coords_of_surface_points pts min_x max_x first_nodes =
      specSurfacePoints pts min_x max_x first_nodes ∧
    (∀ m' c', SSE (specSurfacePoints pts min_x max_x first_nodes)
        (fit_straight_line_to_surface pts min_x max_x first_nodes).1.1
        (fit_straight_line_to_surface pts min_x max_x first_nodes).1.2 ≤
      SSE (specSurfacePoints pts min_x max_x first_nodes) m' c') ∧
    (fit_straight_line_to_surface pts min_x max_x first_nodes).2.1 =
      |(fit_straight_line_to_surface pts min_x max_x first_nodes).1.1| ∧
    (fit_straight_line_to_surface pts min_x max_x first_nodes).2.2 =
      Real.arctan (((fit_straight_line_to_surface pts min_x max_x
        first_nodes).2.1 : ℚ) : ℝ) * 180 / Real.pi := by
  refine ⟨calc_coords_eq_spec pts min_x max_x first_nodes, ?_, rfl, rfl⟩
  intro m' c'
  rw [← calc_coords_eq_spec pts min_x max_x first_nodes]
  exact ols_minimizes _ hn hdet m' c'

/-- Witness for C7: three colinear points fitted inside a strict window;
the fitted line's residual sum is minimal (compared here with the line
z = 0). -/
theorem c7_fit_straight_line_pipeline_witness :
    calc_coords_of_surface_points [(0,1),(1,3),(2,5)] (some (-1))
        (some 10) (some 3) =
      specSurfacePoints [(0,1),(1,3),(2,5)] (some (-1)) (some 10)
        (some 3) ∧
    SSE (specSurfacePoints [(0,1),(1,3),(2,5)] (some (-1)) (some 10)
        (some 3))
      (fit_straight_line_to_surface [(0,1),(1,3),(2,5)] (some (-1))
        (some 10) (some 3)).1.1
      (fit_straight_line_to_surface [(0,1),(1,3),(2,5)] (some (-1))
        (some 10) (some 3)).1.2 ≤
      SSE (specSurfacePoints [(0,1),(1,3),(2,5)] (some (-1)) (some 10)
        (some 3)) 0 0 := by
  have h := c7_fit_straight_line_pipeline [(0,1),(1,3),(2,5)] (some (-1))
    (some 10) (some 3)
    (by norm_num [calc_coords_of_surface_points])
    (by norm_num [calc_coords_of_surface_points, olsDet, sumXX, sumX])
  exact ⟨h.1, h.2.1 0 0⟩

/-- The simulated-time state of `GrainFacetSimulator.run` (lines
200-249): the current time and the next scheduled epochs for file
output, plotting and fault-slip uplift.  (The wall-clock progress report
uses real time, outside the simulated-time state, and is omitted.) -/
structure RunState where
  current_time : ℚ
  next_output : ℚ
  next_plot : ℚ
  next_uplift : ℚ
deriving DecidableEq, Repr

/-- The scheduling parameters of `run`. -/
structure RunParams where
  run_duration : ℚ
  output_interval : ℚ
  plot_interval : ℚ
  uplift_interval : ℚ
deriving DecidableEq, Repr

/-- One iteration of the `while` loop of `run` (lines 214-249): compute
`next_pause` by the source's successive `min`s, advance the engine (and
the current time) to it, then fire and re-schedule each schedule whose
epoch has been reached or passed. -/
def run_step (p : RunParams) (s : RunState) : RunState :=
  let next_pause := min (min (min s.next_output s.next_plot) s.next_uplift)
    p.run_duration
  let current_time := next_pause
  let next_output := if current_time ≥ s.next_output then
    s.next_output + p.output_interval else s.next_output
  let next_plot := if current_time ≥ s.next_plot then
    s.next_plot + p.plot_interval else s.next_plot
  let next_uplift := if current_time ≥ s.next_uplift then
    s.next_uplift + p.uplift_interval else s.next_uplift
  ⟨current_time, next_output, next_plot, next_uplift⟩

/-- The `while current_time < run_duration` loop of `run`, with explicit
fuel; `none` when the fuel is exhausted before the loop exits. -/
def run_loop (p : RunParams) : ℕ → RunState → Option RunState
  | 0, s => if s.current_time < p.run_duration then none else some s
  | (fuel + 1), s =>
      if s.current_time < p.run_duration then run_loop p fuel (run_step p s)
      else some s

/-- `GrainFacetSimulator.run` (lines 200-213): start at time 0 with each
schedule first due after one of its intervals. -/
def run (p : RunParams) (fuel : ℕ) : Option RunState :=
  run_loop p fuel ⟨0, p.output_interval, p.plot_interval, p.uplift_interval⟩

/-- Number of epochs of one schedule still due at or before the end of
the run. -/
def sched_left (run_duration interval x : ℚ) : ℕ :=
  (⌈(run_duration - x) / interval⌉).toNat

/-- Termination potential of the loop. -/
def potential (p : RunParams) (s : RunState) : ℕ :=
  sched_left p.run_duration p.output_interval s.next_output +
  sched_left p.run_duration p.plot_interval s.next_plot +
  sched_left p.run_duration p.uplift_interval s.next_uplift +
  (if s.current_time < p.run_duration then 1 else 0)

lemma sched_left_reschedule_le (d i x : ℚ) (hi : 0 < i) :
    sched_left d i (x + i) ≤ sched_left d i x := by
  have hstep : (d - (x + i)) / i = (d - x) / i - 1 := by
    field_simp
    ring
  rw [sched_left, sched_left, hstep, Int.ceil_sub_one]
  have : (⌈(d - x) / i⌉ - 1) ≤ ⌈(d - x) / i⌉ := by omega
  omega

lemma sched_left_reschedule_lt (d i x : ℚ) (hi : 0 < i) (hx : x < d) :
    sched_left d i (x + i) < sched_left d i x := by
  have hstep : (d - (x + i)) / i = (d - x) / i - 1 := by
    field_simp
    ring
  have hpos : 1 ≤ ⌈(d - x) / i⌉ :=
    Int.ceil_pos.mpr (div_pos (by linarith) hi)
  rw [sched_left, sched_left, hstep, Int.ceil_sub_one]
  omega

/-- Each loop iteration while the run is unfinished strictly decreases
the potential. -/
lemma run_step_decreases (p : RunParams) (s : RunState)
    (ho : 0 < p.output_interval) (hp : 0 < p.plot_interval)
    (hu : 0 < p.uplift_interval)
    (h : s.current_time < p.run_duration) :
    potential p (run_step p s) < potential p s := by
  set np := min (min (min s.next_output s.next_plot) s.next_uplift)
    p.run_duration with hnp
  have hout_le : sched_left p.run_duration p.output_interval
      (run_step p s).next_output ≤
      sched_left p.run_duration p.output_interval s.next_output := by
    rw [run_step]
    by_cases hf : np ≥ s.next_output
    · simp only [← hnp, if_pos hf]
      exact sched_left_reschedule_le _ _ _ ho
    · simp only [← hnp, if_neg hf]
      exact le_rfl
  have hplot_le : sched_left p.run_duration p.plot_interval
      (run_step p s).next_plot ≤
      sched_left p.run_duration p.plot_interval s.next_plot := by
    rw [run_step]
    by_cases hf : np ≥ s.next_plot
    · simp only [← hnp, if_pos hf]
      exact sched_left_reschedule_le _ _ _ hp
    · simp only [← hnp, if_neg hf]
      exact le_rfl
  have huplift_le : sched_left p.run_duration p.uplift_interval
      (run_step p s).next_uplift ≤
      sched_left p.run_duration p.uplift_interval s.next_uplift := by
    rw [run_step]
    by_cases hf : np ≥ s.next_uplift
    · simp only [← hnp, if_pos hf]
      exact sched_left_reschedule_le _ _ _ hu
    · simp only [← hnp, if_neg hf]
      exact le_rfl
  have hcur : (run_step p s).current_time = np := rfl
  by_cases hend : np < p.run_duration
  · -- the pause is an interior schedule epoch: that schedule fires and
    -- strictly loses one pending epoch
    have hmin3 : np = min (min s.next_output s.next_plot) s.next_uplift := by
      rcases min_choice (min (min s.next_output s.next_plot) s.next_uplift)
        p.run_duration with hch | hch
      · rw [hnp, hch]
      · rw [hnp, hch] at hend ⊢
        exact absurd hend (lt_irrefl _)
    have hstrict : sched_left p.run_duration p.output_interval
        (run_step p s).next_output <
        sched_left p.run_duration p.output_interval s.next_output ∨
        sched_left p.run_duration p.plot_interval
        (run_step p s).next_plot <
        sched_left p.run_duration p.plot_interval s.next_plot ∨
        sched_left p.run_duration p.uplift_interval
        (run_step p s).next_uplift <
        sched_left p.run_duration p.uplift_interval s.next_uplift := by
      rcases min_choice (min s.next_output s.next_plot) s.next_uplift
        with h3 | h3
      · rcases min_choice s.next_output s.next_plot with h2 | h2
        · left
          have hfo : np ≥ s.next_output := by
            rw [hmin3, h3, h2]
          rw [run_step]
          simp only [← hnp, if_pos hfo]
          refine sched_left_reschedule_lt _ _ _ ho ?_
          calc s.next_output = np := by rw [hmin3, h3, h2]
            _ < p.run_duration := hend
        · right; left
          have hfo : np ≥ s.next_plot := by
            rw [hmin3, h3, h2]
          rw [run_step]
          simp only [← hnp, if_pos hfo]
          refine sched_left_reschedule_lt _ _ _ hp ?_
          calc s.next_plot = np := by rw [hmin3, h3, h2]
            _ < p.run_duration := hend
      · right; right
        have hfo : np ≥ s.next_uplift := by
          rw [hmin3, h3]
        rw [run_step]
        simp only [← hnp, if_pos hfo]
        refine sched_left_reschedule_lt _ _ _ hu ?_
        calc s.next_uplift = np := by rw [hmin3, h3]
          _ < p.run_duration := hend
    rw [potential, potential, hcur, if_pos hend, if_pos h]
    rcases hstrict with hs | hs | hs <;> omega
  · -- the pause is the run duration itself: the loop indicator drops
    have hiff : ¬ (run_step p s).current_time < p.run_duration := by
      rw [hcur]; exact hend
    rw [potential, potential, if_neg hiff, if_pos h]
    omega

/-- The loop invariant: the current time never exceeds the run
duration. -/
lemma run_step_time_le (p : RunParams) (s : RunState) :
    (run_step p s).current_time ≤ p.run_duration :=
  min_le_right _ _

/-- With fuel at least the potential, the loop returns, and it returns
with the current time exactly equal to the run duration. -/
lemma run_loop_terminates (p : RunParams) (ho : 0 < p.output_interval)
    (hp : 0 < p.plot_interval) (hu : 0 < p.uplift_interval) :
    ∀ (fuel : ℕ) (s : RunState), s.current_time ≤ p.run_duration →
      potential p s ≤ fuel →
      ∃ final, run_loop p fuel s = some final ∧
        final.current_time = p.run_duration := by
  intro fuel
  induction fuel with
  | zero =>
    intro s hle hpot
    by_cases hlt : s.current_time < p.run_duration
    · exfalso
      rw [potential, if_pos hlt] at hpot
      omega
    · exact ⟨s, by rw [run_loop, if_neg hlt], le_antisymm hle
        (not_lt.mp hlt)⟩
  | succ fuel ih =>
    intro s hle hpot
    by_cases hlt : s.current_time < p.run_duration
    · have hdec := run_step_decreases p s ho hp hu hlt
      obtain ⟨final, hrun, hfinal⟩ := ih (run_step p s)
        (run_step_time_le p s) (by omega)
      exact ⟨final, by rw [run_loop, if_pos hlt]; exact hrun, hfinal⟩
    · exact ⟨s, by rw [run_loop, if_neg hlt], le_antisymm hle
        (not_lt.mp hlt)⟩

/-- Claim C8: for every run_duration ≥ 0 and strictly positive output,
plot and uplift intervals, each iteration of `GrainFacetSimulator.run`
advances the engine (and the simulated time) to
`next_pause = min(next_output, next_plot, next_uplift, run_duration)`,
fires and re-schedules — by adding its interval — exactly the schedules
whose epoch has been reached or passed, and the loop terminates with the
current simulated time exactly equal to `run_duration`. -/
theorem c8_run_loop_fires_and_terminates (p : RunParams)
    (hd : 0 ≤ p.run_duration) (ho : 0 < p.output_interval)
    (hp : 0 < p.plot_interval) (hu : 0 < p.uplift_interval) :
    (∀ s : RunState,
      (run_step p s).current_time =
        min s.next_output (min s.next_plot
          (min s.next_uplift p.run_duration)) ∧
      ((s.next_output ≤ (run_step p s).current_time →
        (run_step p s).next_output = s.next_output + p.output_interval) ∧
       (¬ s.next_output ≤ (run_step p s).current_time →
        (run_step p s).next_output = s.next_output)) ∧
      ((s.next_plot ≤ (run_step p s).current_time →
        (run_step p s).next_plot = s.next_plot + p.plot_interval) ∧
       (¬ s.next_plot ≤ (run_step p s).current_time →
        (run_step p s).next_plot = s.next_plot)) ∧
      ((s.next_uplift ≤ (run_step p s).current_time →
        (run_step p s).next_uplift = s.next_uplift + p.uplift_interval) ∧
       (¬ s.next_uplift ≤ (run_step p s).current_time →
        (run_step p s).next_uplift = s.next_uplift))) ∧
    ∃ fuel final, run p fuel = some final ∧
      final.current_time = p.run_duration := by
  constructor
  · intro s
    have hcur : (run_step p s).current_time =
        min (min (min s.next_output s.next_plot) s.next_uplift)
          p.run_duration := rfl
    refine ⟨by rw [hcur, min_assoc, min_assoc], ?_, ?_, ?_⟩
    · constructor
      · intro hf
        rw [run_step]
        simp only [if_pos (show _ ≥ s.next_output from hcur ▸ hf)]
      · intro hf
        rw [run_step]
        simp only [if_neg (show ¬ _ ≥ s.next_output from hcur ▸ hf)]
    · constructor
      · intro hf
        rw [run_step]
        simp only [if_pos (show _ ≥ s.next_plot from hcur ▸ hf)]
      · intro hf
        rw [run_step]
        simp only [if_neg (show ¬ _ ≥ s.next_plot from hcur ▸ hf)]
    · constructor
      · intro hf
        rw [run_step]
        simp only [if_pos (show _ ≥ s.next_uplift from hcur ▸ hf)]
      · intro hf
        rw [run_step]
        simp only [if_neg (show ¬ _ ≥ s.next_uplift from hcur ▸ hf)]
  · obtain ⟨final, hrun, hfinal⟩ :=
      run_loop_terminates p ho hp hu
        (potential p ⟨0, p.output_interval, p.plot_interval,
          p.uplift_interval⟩)
        ⟨0, p.output_interval, p.plot_interval, p.uplift_interval⟩ hd le_rfl
    exact ⟨_, final, hrun, hfinal⟩

/-- Witness for C8 at concrete parameters: duration 2, output every 1,
plot every 3, uplift every 5; the loop stops exactly at time 2 and the
first step of a fresh state pauses at the output epoch 1. -/
theorem c8_run_loop_fires_and_terminates_witness :
    (run_step ⟨2, 1, 3, 5⟩ ⟨0, 1, 3, 5⟩).current_time =
      min (1 : ℚ) (min 3 (min 5 2)) ∧
    ∃ fuel final, run ⟨2, 1, 3, 5⟩ fuel = some final ∧
      final.current_time = 2 := by
  have h := c8_run_loop_fires_and_terminates ⟨2, 1, 3, 5⟩
    (by norm_num) (by norm_num) (by norm_num) (by norm_num)
  exact ⟨(h.1 ⟨0, 1, 3, 5⟩).1, h.2⟩

end GrainHill
